import Mathlib

/-!
Verification of the ExaMPM problem manager (ProblemManager.cc) and the sphere
geometry (Sphere.cc) against their specification.  The C++ source is embedded
shallowly: machine doubles become exact rationals, nodal arrays become total
functions from node index to value, the per-kernel loops become folds, and the
external collaborators (mesh, boundary conditions, stress models) become
explicit parameters with the interfaces the source calls.
-/

namespace ExaMPM

/-- Particle record, mirroring the fields of ExaMPM::Particle that
ProblemManager.cc reads and writes.  Vectors are `Fin 3 → ℚ`, 3×3 tensors are
`Fin 3 → Fin 3 → ℚ`. -/
structure Particle where
  r : Fin 3 → ℚ
  v : Fin 3 → ℚ
  m : ℚ
  volume : ℚ
  F : Fin 3 → Fin 3 → ℚ
  grad_v : Fin 3 → Fin 3 → ℚ
  stress : Fin 3 → Fin 3 → ℚ
  strain : Fin 3 → Fin 3 → ℚ
  matid : ℕ
  node_ids : List ℕ
  basis_values : List ℚ
  basis_gradients : List (Fin 3 → ℚ)

/-- Sphere geometry: center and radius (Sphere.cc, constructor). -/
structure Sphere where
  center : Fin 3 → ℚ
  radius : ℚ

/-- Sphere::particleInGeometry: shift the particle position by the center and
compare the squared norm against the squared radius (inclusive). -/
def Sphere.particleInGeometry (s : Sphere) (p : Particle) : Bool :=
  decide
    ((p.r 0 - s.center 0) * (p.r 0 - s.center 0) +
     (p.r 1 - s.center 1) * (p.r 1 - s.center 1) +
     (p.r 2 - s.center 2) * (p.r 2 - s.center 2) ≤ s.radius * s.radius)

/-- Abstract geometry as used by ProblemManager::initialize: a membership test
plus the data its initializeParticle stamps onto admitted candidates. -/
structure Geometry where
  contains : Particle → Bool
  gmatid : ℕ
  init_v : Fin 3 → ℚ
  density : ℚ

/-- Modelled from the spec: Geometry::initializeParticle (its source is not
under src/) stamps material id and initial velocity on the candidate, and the
initial density together with the candidate volume yields the mass. -/
def Geometry.initializeParticle (g : Geometry) (p : Particle) : Particle :=
  { p with matid := g.gmatid, v := g.init_v, m := g.density * p.volume }

/-- Inner geometry loop of ProblemManager::initialize for a single candidate:
test each geometry in list order and, on the first hit, stamp the candidate and
append it to the particle list (`break`); otherwise leave the list unchanged. -/
def addCandidate (gs : List Geometry) (acc : List Particle) (p : Particle) :
    List Particle :=
  match gs with
  | [] => acc
  | g :: rest =>
    if g.contains p then acc ++ [g.initializeParticle p]
    else addCandidate rest acc p

/-- ProblemManager::initialize: loop over cells, create the candidates of each
cell (abstracted as `cand c i`, the i-th of `ppcell` candidates of cell `c`),
and run each candidate through the geometry loop. -/
def initializeProblem (gs : List Geometry) (num_cells ppcell : ℕ)
    (cand : ℕ → ℕ → Particle) : List Particle :=
  (List.range num_cells).foldl
    (fun acc c =>
      (List.range ppcell).foldl (fun acc2 i => addCandidate gs acc2 (cand c i)) acc)
    []

/-- Declarative form of the initializer used to state claim C6: per cell and
candidate, the first geometry containing the candidate stamps it. -/
def initializeProblemSpec (gs : List Geometry) (num_cells ppcell : ℕ)
    (cand : ℕ → ℕ → Particle) : List Particle :=
  (List.range num_cells).flatMap fun c =>
    (List.range ppcell).filterMap fun i =>
      (gs.find? fun g => g.contains (cand c i)).map
        fun g => g.initializeParticle (cand c i)

/-- Abstract mesh interface as consumed by ProblemManager.cc: nodes per cell,
total node count, and — as a function of the particle position — the cell node
ids, shape-function values and shape-function gradients produced by the
locateParticle / cellNodeIds / shapeFunctionValue / shapeFunctionGradient
sequence. -/
structure Mesh where
  npc : ℕ
  num_nodes : ℕ
  nodeIdsAt : (Fin 3 → ℚ) → List ℕ
  basisValuesAt : (Fin 3 → ℚ) → List ℚ
  basisGradientsAt : (Fin 3 → ℚ) → List (Fin 3 → ℚ)

/-- Body of ProblemManager::locateParticles for one particle: refresh the
scratch fields from the mesh at the particle's position. -/
def locateP (mesh : Mesh) (p : Particle) : Particle :=
  { p with
    node_ids := mesh.nodeIdsAt p.r
    basis_values := mesh.basisValuesAt p.r
    basis_gradients := mesh.basisGradientsAt p.r }

/-- ProblemManager::locateParticles over the whole particle list. -/
def locateParticles (mesh : Mesh) (ps : List Particle) : List Particle :=
  ps.map (locateP mesh)

/-- Inner loop of ProblemManager::calculateNodalMass for one particle:
`node_m[node_ids[n]] += basis_values[n] * m` for `n < nodes_per_cell`. -/
def scatterMassP (npc : ℕ) (p : Particle) (a : ℕ → ℚ) : ℕ → ℚ :=
  (List.range npc).foldl
    (fun b n =>
      Function.update b (p.node_ids.getD n 0)
        (b (p.node_ids.getD n 0) + p.basis_values.getD n 0 * p.m))
    a

/-- ProblemManager::calculateNodalMass: zero the array, then scatter every
particle's mass to its cell nodes. -/
def calculateNodalMass (npc : ℕ) (ps : List Particle) : ℕ → ℚ :=
  ps.foldl (fun a p => scatterMassP npc p a) (fun _ => 0)

/-- Inner loop of the mass-weighted velocity scatter for one particle:
`node[node_ids[n]][d] += m * v[d] * basis_values[n]`.  This loop appears
verbatim both in calculateNodalMomentum and in calculateNodalVelocity. -/
def scatterMomentumP (npc : ℕ) (p : Particle) (a : ℕ → Fin 3 → ℚ) :
    ℕ → Fin 3 → ℚ :=
  (List.range npc).foldl
    (fun b n =>
      Function.update b (p.node_ids.getD n 0)
        (fun d => b (p.node_ids.getD n 0) d + p.m * p.v d * p.basis_values.getD n 0))
    a

/-- Mass-weighted velocity scatter over the whole particle list, starting from
a zeroed array: the accumulation loops of calculateNodalMomentum (step 3) and
of calculateNodalVelocity (step 7). -/
def massWeightedScatter (npc : ℕ) (ps : List Particle) : ℕ → Fin 3 → ℚ :=
  ps.foldl (fun a p => scatterMomentumP npc p a) (fun _ _ => 0)

/-- Apply the six per-face boundary-condition callbacks in face order, as the
`for b in 0..5` loops of ProblemManager.cc do.  A callback receives the face
index, the nodal mass and the nodal vector field. -/
def applyBCs (bc : ℕ → (ℕ → ℚ) → (ℕ → Fin 3 → ℚ) → (ℕ → Fin 3 → ℚ))
    (node_m : ℕ → ℚ) (a : ℕ → Fin 3 → ℚ) : ℕ → Fin 3 → ℚ :=
  (List.range 6).foldl (fun b i => bc i node_m b) a

/-- ProblemManager::calculateNodalMomentum: scatter `m * v`, then apply the six
momentum boundary conditions. -/
def calculateNodalMomentum (npc : ℕ)
    (bc : ℕ → (ℕ → ℚ) → (ℕ → Fin 3 → ℚ) → (ℕ → Fin 3 → ℚ))
    (node_m : ℕ → ℚ) (ps : List Particle) : ℕ → Fin 3 → ℚ :=
  applyBCs bc node_m (massWeightedScatter npc ps)

/-- Inner loop of ProblemManager::calculateInternalNodalForces for one
particle: `node_f_int[node_ids[n]][i] -= volume * basis_gradients[n][j] *
stress[j][i]`, the j-loop written as a sum. -/
def scatterForcesP (npc : ℕ) (p : Particle) (a : ℕ → Fin 3 → ℚ) :
    ℕ → Fin 3 → ℚ :=
  (List.range npc).foldl
    (fun b n =>
      Function.update b (p.node_ids.getD n 0)
        (fun i => b (p.node_ids.getD n 0) i -
          ∑ j, p.volume * (p.basis_gradients.getD n (fun _ => 0)) j * p.stress j i))
    a

/-- ProblemManager::calculateInternalNodalForces: zero the array, then scatter
the stress divergence of every particle.  The source additionally runs
`assert(0 <= p.matid && p.matid < d_materials.size())` on every particle in
this loop; that fatal abort path is not part of this arithmetic definition —
it is modelled separately by `stepChecked` and `solveChecked` below. -/
def calculateInternalNodalForces (npc : ℕ) (ps : List Particle) :
    ℕ → Fin 3 → ℚ :=
  ps.foldl (fun a p => scatterForcesP npc p a) (fun _ _ => 0)

/-- ProblemManager::calculateNodalImpulse: `node_imp = Δt * node_f_int` on
every node, minus `Δt * node_m * 9.81` on the z-component when gravity is on,
then the six impulse boundary conditions. -/
def calculateNodalImpulse (node_f_int : ℕ → Fin 3 → ℚ) (node_m : ℕ → ℚ)
    (delta_t : ℚ) (has_gravity : Bool)
    (bcImp : ℕ → (ℕ → ℚ) → (ℕ → Fin 3 → ℚ) → (ℕ → Fin 3 → ℚ)) :
    ℕ → Fin 3 → ℚ :=
  let imp0 : ℕ → Fin 3 → ℚ := fun n d => delta_t * node_f_int n d
  let imp1 : ℕ → Fin 3 → ℚ :=
    if has_gravity then
      fun n d => if d = 2 then imp0 n d - delta_t * node_m n * (981 / 100) else imp0 n d
    else imp0
  applyBCs bcImp node_m imp1

/-- Body of the node loop of ProblemManager::updateParticlePositionAndVelocity
for one particle `p` and one adjacent-node slot `n`: when the node has mass,
increment the position by `Δt * (node_p + node_imp) * basis_values[n] /
node_m` and the velocity by `node_imp * basis_values[n] / node_m` (FLIP
update); a node without mass contributes nothing. -/
def pvStep (node_imp node_p : ℕ → Fin 3 → ℚ) (node_m : ℕ → ℚ)
    (delta_t : ℚ) (p : Particle) (q : Particle) (n : ℕ) : Particle :=
  let id := p.node_ids.getD n 0
  if 0 < node_m id then
    { q with
      r := fun d => q.r d +
        delta_t * (node_p id d + node_imp id d) * p.basis_values.getD n 0 / node_m id
      v := fun d => q.v d +
        node_imp id d * p.basis_values.getD n 0 / node_m id }
  else q

/-- ProblemManager::updateParticlePositionAndVelocity for one particle: fold
the node loop over the particle's cell-node slots. -/
def updateParticlePV (npc : ℕ) (node_imp node_p : ℕ → Fin 3 → ℚ)
    (node_m : ℕ → ℚ) (delta_t : ℚ) (p : Particle) : Particle :=
  (List.range npc).foldl (pvStep node_imp node_p node_m delta_t p) p

/-- ProblemManager::updateParticlePositionAndVelocity over the particle
list. -/
def updateParticlePositionAndVelocity (npc : ℕ)
    (node_imp node_p : ℕ → Fin 3 → ℚ) (node_m : ℕ → ℚ) (delta_t : ℚ)
    (ps : List Particle) : List Particle :=
  ps.map (updateParticlePV npc node_imp node_p node_m delta_t)

/-- Division loop of ProblemManager::calculateNodalVelocity: where the nodal
mass is positive divide each component by it, otherwise set the velocity to
zero. -/
def nodalVelocityDivide (node_m : ℕ → ℚ) (a : ℕ → Fin 3 → ℚ) :
    ℕ → Fin 3 → ℚ :=
  fun n => if 0 < node_m n then (fun d => a n d / node_m n) else (fun _ => 0)

/-- ProblemManager::calculateNodalVelocity: re-scatter `m * v` into a fresh
nodal momentum, divide by the nodal mass where positive (zero elsewhere), then
apply the six momentum boundary conditions to the velocity array. -/
def calculateNodalVelocity (npc : ℕ)
    (bc : ℕ → (ℕ → ℚ) → (ℕ → Fin 3 → ℚ) → (ℕ → Fin 3 → ℚ))
    (node_m : ℕ → ℚ) (ps : List Particle) : ℕ → Fin 3 → ℚ :=
  applyBCs bc node_m (nodalVelocityDivide node_m (massWeightedScatter npc ps))

/-- Modelled from the spec: TensorTools::determinant (TensorTools.hh is not
under src/), the determinant of a 3×3 tensor. -/
def determinant (a : Fin 3 → Fin 3 → ℚ) : ℚ :=
  a 0 0 * (a 1 1 * a 2 2 - a 1 2 * a 2 1) -
  a 0 1 * (a 1 0 * a 2 2 - a 1 2 * a 2 0) +
  a 0 2 * (a 1 0 * a 2 1 - a 1 1 * a 2 0)

/-- Body of ProblemManager::updateParticleGradients for one particle: rebuild
`grad_v[i][j] = Σ_n basis_gradients[n][i] * node_v[node_ids[n]][j]`, scale it
by Δt into `work`, add `work · F` to the deformation gradient, add the identity
to `work`, and multiply the volume by its determinant. -/
def updateParticleGradientsP (npc : ℕ) (node_v : ℕ → Fin 3 → ℚ)
    (delta_t : ℚ) (p : Particle) : Particle :=
  let grad : Fin 3 → Fin 3 → ℚ := fun i j =>
    ((List.range npc).map
      (fun n => (p.basis_gradients.getD n (fun _ => 0)) i *
        node_v (p.node_ids.getD n 0) j)).sum
  let work : Fin 3 → Fin 3 → ℚ := fun i j => grad i j * delta_t
  let delta_F : Fin 3 → Fin 3 → ℚ := fun i j => ∑ k, work i k * p.F k j
  let work1 : Fin 3 → Fin 3 → ℚ := fun i j =>
    if i = j then work i j + 1 else work i j
  { p with
    grad_v := grad
    F := fun i j => p.F i j + delta_F i j
    volume := p.volume * determinant work1 }

/-- ProblemManager::updateParticleGradients over the particle list. -/
def updateParticleGradients (npc : ℕ) (node_v : ℕ → Fin 3 → ℚ)
    (delta_t : ℚ) (ps : List Particle) : List Particle :=
  ps.map (updateParticleGradientsP npc node_v delta_t)

/-- A stress model, per the StressModel contract: from the particle state
compute the new stress and strain tensors. -/
def StressModel : Type :=
  Particle → (Fin 3 → Fin 3 → ℚ) × (Fin 3 → Fin 3 → ℚ)

/-- Body of ProblemManager::updateParticleStressStrain for one particle:
dispatch on matid and store the computed stress and strain.  An out-of-range
matid never reaches this dispatch in the source: the assertion in
calculateInternalNodalForces aborts the step first (in a release build the
unchecked dispatch is undefined behaviour).  Here the out-of-range case is
totalized as a no-op, which is only ever exercised on runs the source would
already have aborted; the abort itself is modelled by `stepChecked` and
`solveChecked`. -/
def stressStrainP (materials : List StressModel) (p : Particle) : Particle :=
  let f := materials.getD p.matid (fun q => (q.stress, q.strain))
  { p with stress := (f p).1, strain := (f p).2 }

/-- ProblemManager::updateParticleStressStrain over the particle list. -/
def updateParticleStressStrain (materials : List StressModel)
    (ps : List Particle) : List Particle :=
  ps.map (stressStrainP materials)

/-- Problem-manager configuration: the mesh, the six-face boundary-condition
callbacks for momentum-like and impulse-like fields, the material table, and
the gravity flag. -/
structure Config where
  mesh : Mesh
  bc : ℕ → (ℕ → ℚ) → (ℕ → Fin 3 → ℚ) → (ℕ → Fin 3 → ℚ)
  bcImp : ℕ → (ℕ → ℚ) → (ℕ → Fin 3 → ℚ) → (ℕ → Fin 3 → ℚ)
  materials : List StressModel
  has_gravity : Bool

/-- One pass of the nine-step pipeline in the body of ProblemManager::solve,
in the source's order. -/
def step (cfg : Config) (delta_t : ℚ) (ps : List Particle) : List Particle :=
  let ps1 := locateParticles cfg.mesh ps
  let node_m := calculateNodalMass cfg.mesh.npc ps1
  let node_p := calculateNodalMomentum cfg.mesh.npc cfg.bc node_m ps1
  let node_f_int := calculateInternalNodalForces cfg.mesh.npc ps1
  let node_imp :=
    calculateNodalImpulse node_f_int node_m delta_t cfg.has_gravity cfg.bcImp
  let ps2 :=
    updateParticlePositionAndVelocity cfg.mesh.npc node_imp node_p node_m delta_t ps1
  let node_v := calculateNodalVelocity cfg.mesh.npc cfg.bc node_m ps2
  let ps3 := updateParticleGradients cfg.mesh.npc node_v delta_t ps2
  updateParticleStressStrain cfg.materials ps3

/-- File name built by ProblemManager::writeTimeStepToFile:
`output_file + ".csv." + step`. -/
def fileName (output_file : String) (s : ℕ) : String :=
  output_file ++ ".csv." ++ toString s

/-- ProblemManager::solve, modelled as the list of snapshot file names it
emits together with the final particle state: write the initial state at index
0; per step run the pipeline and, when the 1-based step index is a multiple of
the write frequency, write the next index; after the loop write one more
file. -/
def solve (cfg : Config) (num_time_steps : ℕ) (time_step_size : ℚ)
    (output_file : String) (write_frequency : ℕ) (ps : List Particle) :
    List String × List Particle :=
  let res :=
    (List.range num_time_steps).foldl
      (fun (acc : List String × ℕ × List Particle) stepIdx =>
        let ps2 := step cfg time_step_size acc.2.2
        if (stepIdx + 1) % write_frequency = 0 then
          (acc.1 ++ [fileName output_file (acc.2.1 + 1)], acc.2.1 + 1, ps2)
        else
          (acc.1, acc.2.1, ps2))
      ([fileName output_file 0], 0, ps)
  (res.1 ++ [fileName output_file (res.2.1 + 1)], res.2.2)

/-- Nodal momentum as left by step 3 of the pipeline (after its boundary
conditions), on particles freshly located as in step 1. -/
def step3Momentum (cfg : Config) (ps : List Particle) : ℕ → Fin 3 → ℚ :=
  let ps1 := locateParticles cfg.mesh ps
  calculateNodalMomentum cfg.mesh.npc cfg.bc (calculateNodalMass cfg.mesh.npc ps1) ps1

/-- The mass-weighted nodal momentum re-scattered inside step 7 of the
pipeline: the pipeline run through step 6, then the accumulation loop of
calculateNodalVelocity on the updated particles. -/
def step7Rescatter (cfg : Config) (delta_t : ℚ) (ps : List Particle) :
    ℕ → Fin 3 → ℚ :=
  let ps1 := locateParticles cfg.mesh ps
  let node_m := calculateNodalMass cfg.mesh.npc ps1
  let node_p := calculateNodalMomentum cfg.mesh.npc cfg.bc node_m ps1
  let node_f_int := calculateInternalNodalForces cfg.mesh.npc ps1
  let node_imp :=
    calculateNodalImpulse node_f_int node_m delta_t cfg.has_gravity cfg.bcImp
  let ps2 :=
    updateParticlePositionAndVelocity cfg.mesh.npc node_imp node_p node_m delta_t ps1
  massWeightedScatter cfg.mesh.npc ps2

/-- One pass of the pipeline with the fatal assertion of
calculateInternalNodalForces made explicit
(`assert(0 <= p.matid && p.matid < d_materials.size())`): after locating the
particles (step 1), if any particle's material id is out of range the step
aborts (`none`, the source's assert/abort) before the step can complete;
otherwise the step runs as `step`. -/
def stepChecked (cfg : Config) (delta_t : ℚ) (ps : List Particle) :
    Option (List Particle) :=
  if (locateParticles cfg.mesh ps).all
      (fun p => decide (p.matid < cfg.materials.length)) then
    some (step cfg delta_t ps)
  else none

/-- One iteration of the time loop of `solveChecked`: if the run already
aborted nothing more happens; otherwise run the checked step — aborting on
assertion failure before any write of this iteration — and emit the periodic
snapshot when the 1-based step index is a multiple of the write frequency. -/
def solveCheckedStep (cfg : Config) (time_step_size : ℚ)
    (output_file : String) (write_frequency : ℕ)
    (acc : List String × ℕ × Option (List Particle)) (stepIdx : ℕ) :
    List String × ℕ × Option (List Particle) :=
  match acc.2.2 with
  | none => acc
  | some cur =>
    match stepChecked cfg time_step_size cur with
    | none => (acc.1, acc.2.1, none)
    | some ps2 =>
      if (stepIdx + 1) % write_frequency = 0 then
        (acc.1 ++ [fileName output_file (acc.2.1 + 1)], acc.2.1 + 1, some ps2)
      else (acc.1, acc.2.1, some ps2)

/-- ProblemManager::solve with the fatal matid assertion modelled: the list of
snapshot files actually written, and `some` final state on completion or
`none` when a step aborted.  An aborted run keeps the files written before the
abort and writes neither the pending periodic file nor the final file. -/
def solveChecked (cfg : Config) (num_time_steps : ℕ) (time_step_size : ℚ)
    (output_file : String) (write_frequency : ℕ) (ps : List Particle) :
    List String × Option (List Particle) :=
  let res :=
    (List.range num_time_steps).foldl
      (solveCheckedStep cfg time_step_size output_file write_frequency)
      ([fileName output_file 0], 0, some ps)
  match res.2.2 with
  | none => (res.1, none)
  | some qs => (res.1 ++ [fileName output_file (res.2.1 + 1)], some qs)

/-- A single at-rest particle in a one-node cell, used to instantiate the
theorems on concrete inputs. -/
def pRest : Particle where
  r := fun _ => 0
  v := fun _ => 0
  m := 1
  volume := 1
  F := fun i j => if i = j then 1 else 0
  grad_v := fun _ _ => 0
  stress := fun _ _ => 0
  strain := fun _ _ => 0
  matid := 0
  node_ids := [0]
  basis_values := [1]
  basis_gradients := [fun _ => 0]

/-- One-cell, one-node mesh whose single shape function is identically 1. -/
def mesh1 : Mesh where
  npc := 1
  num_nodes := 1
  nodeIdsAt := fun _ => [0]
  basisValuesAt := fun _ => [1]
  basisGradientsAt := fun _ => [fun _ => 0]

/-- Identity boundary-condition callback. -/
def bcId : ℕ → (ℕ → ℚ) → (ℕ → Fin 3 → ℚ) → (ℕ → Fin 3 → ℚ) :=
  fun _ _ a => a

/-- Zero-stress material model. -/
def zeroStressModel : StressModel :=
  fun p => ((fun _ _ => 0), p.strain)

/-- Concrete gravity-free configuration on the one-node mesh. -/
def cfg0 : Config where
  mesh := mesh1
  bc := bcId
  bcImp := bcId
  materials := [zeroStressModel]
  has_gravity := false

/-- Concrete configuration with gravity enabled on the one-node mesh. -/
def cfgG : Config where
  mesh := mesh1
  bc := bcId
  bcImp := bcId
  materials := [zeroStressModel]
  has_gravity := true

/-- Concrete configuration with an empty material table. -/
def cfgE : Config where
  mesh := mesh1
  bc := bcId
  bcImp := bcId
  materials := []
  has_gravity := false

/-- Geometry that contains every particle and stamps material id 7. -/
def geomA : Geometry where
  contains := fun _ => true
  gmatid := 7
  init_v := fun _ => 0
  density := 1

/-- Geometry that contains every particle and stamps material id 8; listed
after `geomA` it overlaps it everywhere. -/
def geomB : Geometry where
  contains := fun _ => true
  gmatid := 8
  init_v := fun _ => 0
  density := 2

/-- Unit sphere at the origin, for concrete instances. -/
def sphereW : Sphere where
  center := fun _ => 0
  radius := 1

/-- Particle sitting exactly on the boundary of `sphereW`. -/
def pBound : Particle :=
  { pRest with r := fun i => if i = 0 then 1 else 0 }

/-- Relation used for the rest-state invariant: the left particle keeps the
right particle's position and deformation gradient, and is itself at rest with
zero stress. -/
def restR (q p : Particle) : Prop :=
  q.r = p.r ∧ q.F = p.F ∧ q.v = (fun _ => 0) ∧ q.stress = (fun _ _ => 0)

/-! ## Helper lemmas -/

theorem list_foldl_id_mem {α β : Type*} (f : β → α → β) :
    ∀ l : List α, (∀ b, ∀ a ∈ l, f b a = b) → ∀ b, l.foldl f b = b := by
  intro l
  induction l with
  | nil => intro _ b; rfl
  | cons a t ih =>
    intro h b
    rw [List.foldl_cons, h b a (List.mem_cons_self _ _)]
    exact ih (fun b x hx => h b x (List.mem_cons_of_mem _ hx)) b

theorem list_foldl_fixed_mem {α β : Type*} (f : β → α → β) (z : β) :
    ∀ l : List α, (∀ a ∈ l, f z a = z) → l.foldl f z = z := by
  intro l
  induction l with
  | nil => intro _; rfl
  | cons a t ih =>
    intro h
    rw [List.foldl_cons, h a (List.mem_cons_self _ _)]
    exact ih fun x hx => h x (List.mem_cons_of_mem _ hx)

theorem list_foldl_congr {α β : Type*} (f g : β → α → β)
    (h : ∀ b a, f b a = g b a) : ∀ (l : List α) (b : β), l.foldl f b = l.foldl g b := by
  intro l
  induction l with
  | nil => intro b; rfl
  | cons a t ih =>
    intro b
    rw [List.foldl_cons, List.foldl_cons, h b a]
    exact ih _

theorem sum_update_add (N : ℕ) (f : ℕ → ℚ) (i : ℕ) (hi : i < N) (x : ℚ) :
    ∑ n ∈ Finset.range N, Function.update f i (f i + x) n
      = (∑ n ∈ Finset.range N, f n) + x := by
  rw [Finset.sum_update_of_mem (Finset.mem_range.mpr hi),
    Finset.sdiff_singleton_eq_erase,
    ← Finset.add_sum_erase _ f (Finset.mem_range.mpr hi)]
  ring

theorem update_apply_comp (b : ℕ → Fin 3 → ℚ) (i : ℕ) (g : Fin 3 → ℚ)
    (n : ℕ) (d : Fin 3) :
    Function.update b i g n d = Function.update (fun k => b k d) i (g d) n := by
  by_cases h : n = i
  · subst h; simp
  · simp [Function.update_noteq h]

theorem range_map_getD (l : List ℚ) :
    (List.range l.length).map (fun n => l.getD n 0) = l := by
  induction l with
  | nil => rfl
  | cons a t ih =>
    rw [List.length_cons, List.range_succ_eq_map, List.map_cons]
    have h2 : ((fun n => (a :: t).getD n 0) ∘ Nat.succ) = fun n => t.getD n 0 := by
      funext n; rfl
    rw [List.map_map, h2, ih]
    rfl

theorem list_sum_map_mul_right (l : List ℚ) (c : ℚ) :
    (l.map (fun x => x * c)).sum = l.sum * c := by
  induction l with
  | nil => simp
  | cons a t ih => simp [ih, add_mul]

theorem list_sum_map_mul_left (l : List ℚ) (c : ℚ) :
    (l.map (fun x => c * x)).sum = c * l.sum := by
  induction l with
  | nil => simp
  | cons a t ih => simp [ih, mul_add]

theorem scatterMassP_sum (N npc : ℕ) (p : Particle)
    (hid : ∀ n, n < npc → p.node_ids.getD n 0 < N) (a : ℕ → ℚ) :
    ∑ n ∈ Finset.range N, scatterMassP npc p a n
      = (∑ n ∈ Finset.range N, a n)
        + ((List.range npc).map (fun n => p.basis_values.getD n 0 * p.m)).sum := by
  have key : ∀ (l : List ℕ) (a : ℕ → ℚ),
      (∀ n ∈ l, p.node_ids.getD n 0 < N) →
      ∑ n ∈ Finset.range N,
        (l.foldl (fun b n => Function.update b (p.node_ids.getD n 0)
          (b (p.node_ids.getD n 0) + p.basis_values.getD n 0 * p.m)) a) n
        = (∑ n ∈ Finset.range N, a n)
          + (l.map (fun n => p.basis_values.getD n 0 * p.m)).sum := by
    intro l
    induction l with
    | nil => intro a _; simp
    | cons n t ih =>
      intro a h
      rw [List.foldl_cons, ih _ (fun x hx => h x (List.mem_cons_of_mem _ hx)),
        sum_update_add N a _ (h n (List.mem_cons_self _ _)),
        List.map_cons, List.sum_cons]
      ring
  exact key (List.range npc) a (fun n hn => hid n (List.mem_range.mp hn))

theorem scatterMomentumP_sum (N npc : ℕ) (p : Particle)
    (hid : ∀ n, n < npc → p.node_ids.getD n 0 < N) (a : ℕ → Fin 3 → ℚ)
    (d : Fin 3) :
    ∑ n ∈ Finset.range N, scatterMomentumP npc p a n d
      = (∑ n ∈ Finset.range N, a n d)
        + ((List.range npc).map
            (fun n => p.m * p.v d * p.basis_values.getD n 0)).sum := by
  have key : ∀ (l : List ℕ) (a : ℕ → Fin 3 → ℚ),
      (∀ n ∈ l, p.node_ids.getD n 0 < N) →
      ∑ n ∈ Finset.range N,
        (l.foldl (fun (b : ℕ → Fin 3 → ℚ) n => Function.update b (p.node_ids.getD n 0)
          (fun e => b (p.node_ids.getD n 0) e +
            p.m * p.v e * p.basis_values.getD n 0)) a) n d
        = (∑ n ∈ Finset.range N, a n d)
          + (l.map (fun n => p.m * p.v d * p.basis_values.getD n 0)).sum := by
    intro l
    induction l with
    | nil => intro a _; simp
    | cons n t ih =>
      intro a h
      rw [List.foldl_cons, ih _ (fun x hx => h x (List.mem_cons_of_mem _ hx))]
      have hupd : ∑ k ∈ Finset.range N,
          (Function.update a (p.node_ids.getD n 0)
            (fun e => a (p.node_ids.getD n 0) e +
              p.m * p.v e * p.basis_values.getD n 0)) k d
          = (∑ k ∈ Finset.range N, a k d)
            + p.m * p.v d * p.basis_values.getD n 0 := by
        have := sum_update_add N (fun k => a k d) (p.node_ids.getD n 0)
          (h n (List.mem_cons_self _ _)) (p.m * p.v d * p.basis_values.getD n 0)
        rw [← this]
        exact Finset.sum_congr rfl fun k _ => update_apply_comp a _ _ k d
      rw [hupd, List.map_cons, List.sum_cons]
      ring
  exact key (List.range npc) a (fun n hn => hid n (List.mem_range.mp hn))

theorem basis_partition_sum (npc : ℕ) (p : Particle)
    (hlen : p.basis_values.length = npc) (hpu : p.basis_values.sum = 1) :
    ((List.range npc).map (fun n => p.basis_values.getD n 0 * p.m)).sum
      = p.m := by
  have h1 : (fun n => p.basis_values.getD n 0 * p.m)
      = (fun x => x * p.m) ∘ (fun n => p.basis_values.getD n 0) := rfl
  rw [h1, ← List.map_map, ← hlen, range_map_getD, list_sum_map_mul_right, hpu,
    one_mul]

theorem basis_partition_sum_mom (npc : ℕ) (p : Particle) (d : Fin 3)
    (hlen : p.basis_values.length = npc) (hpu : p.basis_values.sum = 1) :
    ((List.range npc).map (fun n => p.m * p.v d * p.basis_values.getD n 0)).sum
      = p.m * p.v d := by
  have h1 : (fun n => p.m * p.v d * p.basis_values.getD n 0)
      = (fun x => p.m * p.v d * x) ∘ (fun n => p.basis_values.getD n 0) := rfl
  rw [h1, ← List.map_map, ← hlen, range_map_getD, list_sum_map_mul_left, hpu,
    mul_one]

theorem calculateNodalMass_fold_sum (N npc : ℕ) (ps : List Particle) :
    ∀ a : ℕ → ℚ,
      (∀ p ∈ ps, ∀ n, n < npc → p.node_ids.getD n 0 < N) →
      (∀ p ∈ ps, p.basis_values.length = npc) →
      (∀ p ∈ ps, p.basis_values.sum = 1) →
      ∑ n ∈ Finset.range N, (ps.foldl (fun b p => scatterMassP npc p b) a) n
        = (∑ n ∈ Finset.range N, a n) + (ps.map Particle.m).sum := by
  induction ps with
  | nil => intro a _ _ _; simp
  | cons p t ih =>
    intro a hid hlen hpu
    rw [List.foldl_cons,
      ih _ (fun q hq => hid q (List.mem_cons_of_mem _ hq))
        (fun q hq => hlen q (List.mem_cons_of_mem _ hq))
        (fun q hq => hpu q (List.mem_cons_of_mem _ hq)),
      scatterMassP_sum N npc p (hid p (List.mem_cons_self _ _)) a,
      basis_partition_sum npc p (hlen p (List.mem_cons_self _ _))
        (hpu p (List.mem_cons_self _ _)),
      List.map_cons, List.sum_cons]
    ring

theorem massWeightedScatter_fold_sum (N npc : ℕ) (ps : List Particle)
    (d : Fin 3) :
    ∀ a : ℕ → Fin 3 → ℚ,
      (∀ p ∈ ps, ∀ n, n < npc → p.node_ids.getD n 0 < N) →
      (∀ p ∈ ps, p.basis_values.length = npc) →
      (∀ p ∈ ps, p.basis_values.sum = 1) →
      ∑ n ∈ Finset.range N, (ps.foldl (fun b p => scatterMomentumP npc p b) a) n d
        = (∑ n ∈ Finset.range N, a n d)
          + (ps.map (fun p => p.m * p.v d)).sum := by
  induction ps with
  | nil => intro a _ _ _; simp
  | cons p t ih =>
    intro a hid hlen hpu
    rw [List.foldl_cons,
      ih _ (fun q hq => hid q (List.mem_cons_of_mem _ hq))
        (fun q hq => hlen q (List.mem_cons_of_mem _ hq))
        (fun q hq => hpu q (List.mem_cons_of_mem _ hq)),
      scatterMomentumP_sum N npc p (hid p (List.mem_cons_self _ _)) a d,
      basis_partition_sum_mom npc p d (hlen p (List.mem_cons_self _ _))
        (hpu p (List.mem_cons_self _ _)),
      List.map_cons, List.sum_cons]
    ring

/-! ## Claim theorems -/

/-- Claim C1: immediately after the nodal-mass scatter the sum over all nodes
of `node_m` equals the sum over all particles of `m`, given that every
particle's basis values sum to 1 (partition of unity), its basis-value list has
`nodes_per_cell` entries, and its node ids are in range. -/
theorem claim1_mass_conservation (N npc : ℕ) (ps : List Particle)
    (hid : ∀ p ∈ ps, ∀ n, n < npc → p.node_ids.getD n 0 < N)
    (hlen : ∀ p ∈ ps, p.basis_values.length = npc)
    (hpu : ∀ p ∈ ps, p.basis_values.sum = 1) :
    ∑ n ∈ Finset.range N, calculateNodalMass npc ps n
      = (ps.map Particle.m).sum := by
  have h := calculateNodalMass_fold_sum N npc ps (fun _ => 0) hid hlen hpu
  simpa [calculateNodalMass] using h

/-- Concrete instance of claim C1: one particle of mass 1 on the one-node
mesh. -/
theorem claim1_witness :
    ∑ n ∈ Finset.range 1, calculateNodalMass 1 [pRest] n
      = ([pRest].map Particle.m).sum :=
  claim1_mass_conservation 1 1 [pRest]
    (by
      intro p hp n hn
      rw [List.mem_singleton] at hp
      subst hp
      rcases Nat.lt_one_iff.mp hn with rfl
      decide)
    (by
      intro p hp
      rw [List.mem_singleton] at hp
      subst hp
      rfl)
    (by
      intro p hp
      rw [List.mem_singleton] at hp
      subst hp
      simp [pRest])

/-- Claim C2: immediately after the momentum accumulation loop of
calculateNodalMomentum (before its boundary conditions) the sum over all nodes
of each momentum component equals the sum over all particles of `m * v[d]`,
under the same partition-of-unity hypotheses. -/
theorem claim2_momentum_conservation (N npc : ℕ) (ps : List Particle)
    (d : Fin 3)
    (hid : ∀ p ∈ ps, ∀ n, n < npc → p.node_ids.getD n 0 < N)
    (hlen : ∀ p ∈ ps, p.basis_values.length = npc)
    (hpu : ∀ p ∈ ps, p.basis_values.sum = 1) :
    ∑ n ∈ Finset.range N, massWeightedScatter npc ps n d
      = (ps.map (fun p => p.m * p.v d)).sum := by
  have h := massWeightedScatter_fold_sum N npc ps d (fun _ _ => 0) hid hlen hpu
  simpa [massWeightedScatter] using h

/-- Concrete instance of claim C2: one particle of mass 1 on the one-node
mesh, x-component. -/
theorem claim2_witness :
    ∑ n ∈ Finset.range 1, massWeightedScatter 1 [pRest] n 0
      = ([pRest].map (fun p => p.m * p.v 0)).sum :=
  claim2_momentum_conservation 1 1 [pRest] 0
    (by
      intro p hp n hn
      rw [List.mem_singleton] at hp
      subst hp
      rcases Nat.lt_one_iff.mp hn with rfl
      decide)
    (by
      intro p hp
      rw [List.mem_singleton] at hp
      subst hp
      rfl)
    (by
      intro p hp
      rw [List.mem_singleton] at hp
      subst hp
      simp [pRest])

/-- Claim C10: Sphere::particleInGeometry holds exactly when the squared
Euclidean distance from the particle position to the center is at most the
squared radius; points exactly on the boundary are contained; and the result
depends only on the particle's position. -/
theorem claim10_sphere_membership (s : Sphere) (p : Particle) :
    (s.particleInGeometry p = true ↔
      (∑ i, (p.r i - s.center i) ^ 2) ≤ s.radius ^ 2)
    ∧ ((∑ i, (p.r i - s.center i) ^ 2) = s.radius ^ 2 →
        s.particleInGeometry p = true)
    ∧ (∀ q : Particle, q.r = p.r →
        s.particleInGeometry q = s.particleInGeometry p) := by
  have hsum : (∑ i, (p.r i - s.center i) ^ 2)
      = (p.r 0 - s.center 0) * (p.r 0 - s.center 0) +
        (p.r 1 - s.center 1) * (p.r 1 - s.center 1) +
        (p.r 2 - s.center 2) * (p.r 2 - s.center 2) := by
    rw [Fin.sum_univ_three]
    ring
  have hiff : s.particleInGeometry p = true ↔
      (∑ i, (p.r i - s.center i) ^ 2) ≤ s.radius ^ 2 := by
    unfold Sphere.particleInGeometry
    rw [decide_eq_true_eq, hsum, pow_two]
  refine ⟨hiff, fun he => hiff.mpr (le_of_eq he), fun q hq => ?_⟩
  unfold Sphere.particleInGeometry
  rw [hq]

/-- Concrete instance of claim C10: the point (1,0,0) lies on the boundary of
the unit sphere and is contained in it. -/
theorem claim10_witness : sphereW.particleInGeometry pBound = true :=
  (claim10_sphere_membership sphereW pBound).2.1
    (by
      rw [Fin.sum_univ_three]
      norm_num [pBound, sphereW, pRest]
      decide)

/-- Claim C3: in updateParticlePositionAndVelocity no particle position or
velocity component reads the momentum or impulse of a node whose mass is not
strictly positive (the division is guarded), and in calculateNodalVelocity a
node with zero mass has its velocity set to exactly zero by the division
loop. -/
theorem claim3_zero_mass_guard (npc : ℕ) (node_m : ℕ → ℚ) :
    (∀ (node_p node_p' node_imp node_imp' : ℕ → Fin 3 → ℚ) (delta_t : ℚ)
        (p : Particle),
        (∀ n, 0 < node_m n → node_p n = node_p' n) →
        (∀ n, 0 < node_m n → node_imp n = node_imp' n) →
        updateParticlePV npc node_imp node_p node_m delta_t p
          = updateParticlePV npc node_imp' node_p' node_m delta_t p)
    ∧ (∀ (a : ℕ → Fin 3 → ℚ) (n : ℕ), node_m n = 0 →
        ∀ d, nodalVelocityDivide node_m a n d = 0) := by
  constructor
  · intro node_p node_p' node_imp node_imp' delta_t p hp hi
    unfold updateParticlePV
    apply list_foldl_congr
    intro q n
    unfold pvStep
    dsimp only
    by_cases hm : 0 < node_m (p.node_ids.getD n 0)
    · rw [if_pos hm, if_pos hm, hp _ hm, hi _ hm]
    · rw [if_neg hm, if_neg hm]
  · intro a n h d
    unfold nodalVelocityDivide
    rw [h]
    simp

/-- Concrete instance of claim C3: on a node of zero mass, replacing the
momentum and impulse values changes nothing, and the divided velocity is
zero. -/
theorem claim3_witness :
    updateParticlePV 1 (fun _ _ => 0) (fun _ _ => 0) (fun _ => 0) 1 pRest
      = updateParticlePV 1 (fun _ _ => 5) (fun _ _ => 7) (fun _ => 0) 1 pRest
    ∧ nodalVelocityDivide (fun _ => 0) (fun _ _ => 3) 0 2 = 0 :=
  ⟨(claim3_zero_mass_guard 1 (fun _ => 0)).1 (fun _ _ => 7) (fun _ _ => 0)
      (fun _ _ => 5) (fun _ _ => 0) 1 pRest
      (fun n hn => absurd hn (by norm_num))
      (fun n hn => absurd hn (by norm_num)),
    (claim3_zero_mass_guard 1 (fun _ => 0)).2 (fun _ _ => 3) 0 rfl 2⟩

/-- Claim C4: over one execution of updateParticleGradients the new particle
volume equals the old volume times det(I + Δt·grad_v), where grad_v is the
velocity gradient computed in the same call; equivalently the volume ratio
equals the determinant whenever the old volume is nonzero. -/
theorem claim4_volume_determinant (npc : ℕ) (node_v : ℕ → Fin 3 → ℚ)
    (delta_t : ℚ) (p : Particle) :
    ((updateParticleGradientsP npc node_v delta_t p).volume
      = p.volume * determinant (fun i j =>
          (if i = j then 1 else 0) +
          delta_t * (updateParticleGradientsP npc node_v delta_t p).grad_v i j))
    ∧ (p.volume ≠ 0 →
        (updateParticleGradientsP npc node_v delta_t p).volume / p.volume
          = determinant (fun i j =>
              (if i = j then 1 else 0) +
              delta_t * (updateParticleGradientsP npc node_v delta_t p).grad_v i j)) := by
  have hgrad : (updateParticleGradientsP npc node_v delta_t p).grad_v
      = fun i j => ((List.range npc).map
          (fun n => (p.basis_gradients.getD n (fun _ => 0)) i *
            node_v (p.node_ids.getD n 0) j)).sum := rfl
  have hvol : (updateParticleGradientsP npc node_v delta_t p).volume
      = p.volume * determinant (fun i j =>
          (if i = j then 1 else 0) +
          delta_t * (updateParticleGradientsP npc node_v delta_t p).grad_v i j) := by
    rw [hgrad]
    show p.volume * determinant _ = p.volume * determinant _
    congr 1
    apply congrArg
    funext i j
    by_cases h : i = j
    · simp only [if_pos h]
      ring
    · simp only [if_neg h]
      ring
  refine ⟨hvol, fun h0 => ?_⟩
  rw [hvol]
  field_simp

/-- Concrete instance of claim C4: one particle, zero nodal velocity, unit
time step; the volume ratio is det(I). -/
theorem claim4_witness :
    (updateParticleGradientsP 1 (fun _ _ => 0) 1 pRest).volume / pRest.volume
      = determinant (fun i j =>
          (if i = j then 1 else 0) +
          1 * (updateParticleGradientsP 1 (fun _ _ => 0) 1 pRest).grad_v i j) :=
  (claim4_volume_determinant 1 (fun _ _ => 0) 1 pRest).2 (by norm_num [pRest])

theorem addCandidate_eq (gs : List Geometry) (acc : List Particle)
    (p : Particle) :
    addCandidate gs acc p
      = acc ++ ((gs.find? fun g => g.contains p).map
          (fun g => g.initializeParticle p)).toList := by
  induction gs with
  | nil => simp [addCandidate]
  | cons g rest ih =>
    unfold addCandidate
    by_cases h : g.contains p
    · simp [h]
    · have hf : List.find? (fun g0 => g0.contains p) (g :: rest)
          = List.find? (fun g0 => g0.contains p) rest :=
        List.find?_cons_of_neg rest (fun hc => h (by simpa using hc))
      rw [if_neg h, hf]
      exact ih

theorem list_foldl_append_hom {α β : Type*} (h : α → List β) :
    ∀ (l : List α) (acc : List β),
      l.foldl (fun a x => a ++ h x) acc = acc ++ l.flatMap h := by
  intro l
  induction l with
  | nil => intro acc; simp
  | cons x t ih =>
    intro acc
    rw [List.foldl_cons, ih, List.flatMap_cons, List.append_assoc]

theorem list_filterMap_eq_flatMap {α β : Type*} (g : α → Option β) :
    ∀ l : List α, l.filterMap g = l.flatMap (fun x => (g x).toList) := by
  intro l
  induction l with
  | nil => rfl
  | cons x t ih =>
    rw [List.filterMap_cons, List.flatMap_cons, ← ih]
    cases g x <;> rfl

theorem initializeProblem_eq_spec (gs : List Geometry) (num_cells ppcell : ℕ)
    (cand : ℕ → ℕ → Particle) :
    initializeProblem gs num_cells ppcell cand
      = initializeProblemSpec gs num_cells ppcell cand := by
  unfold initializeProblem initializeProblemSpec
  have hinner : ∀ (c : ℕ) (acc : List Particle),
      (List.range ppcell).foldl (fun acc2 i => addCandidate gs acc2 (cand c i)) acc
        = acc ++ (List.range ppcell).flatMap
            (fun i => ((gs.find? fun g => g.contains (cand c i)).map
              (fun g => g.initializeParticle (cand c i))).toList) := by
    intro c acc
    rw [list_foldl_congr _
      (fun acc2 i => acc2 ++ ((gs.find? fun g => g.contains (cand c i)).map
        (fun g => g.initializeParticle (cand c i))).toList)
      (fun b i => addCandidate_eq gs b (cand c i))]
    exact list_foldl_append_hom _ (List.range ppcell) acc
  rw [list_foldl_congr _
    (fun acc c => acc ++ (List.range ppcell).flatMap
      (fun i => ((gs.find? fun g => g.contains (cand c i)).map
        (fun g => g.initializeParticle (cand c i))).toList))
    (fun b c => hinner c b)]
  rw [list_foldl_append_hom _ (List.range num_cells) []]
  rw [List.nil_append]
  congr 1
  funext c
  rw [list_filterMap_eq_flatMap]

/-- Claim C6: initialize admits a candidate exactly when some geometry
contains it, always stamping with the first (earliest-listed) containing
geometry — so each particle's material id equals that geometry's id — and
appends accepted particles in deterministic order, by cell index then by
candidate index within the cell (the declarative first-match form). -/
theorem claim6_first_match_binding (gs : List Geometry) (num_cells ppcell : ℕ)
    (cand : ℕ → ℕ → Particle) :
    initializeProblem gs num_cells ppcell cand
      = initializeProblemSpec gs num_cells ppcell cand
    ∧ (∀ q ∈ initializeProblem gs num_cells ppcell cand,
        ∃ c i g, c < num_cells ∧ i < ppcell ∧
          (gs.find? fun g0 => g0.contains (cand c i)) = some g ∧
          g.contains (cand c i) = true ∧
          q = g.initializeParticle (cand c i) ∧ q.matid = g.gmatid) := by
  refine ⟨initializeProblem_eq_spec gs num_cells ppcell cand, ?_⟩
  intro q hq
  rw [initializeProblem_eq_spec, initializeProblemSpec] at hq
  rw [List.mem_flatMap] at hq
  obtain ⟨c, hc, hq⟩ := hq
  rw [List.mem_filterMap] at hq
  obtain ⟨i, hi, hfound⟩ := hq
  rw [Option.map_eq_some'] at hfound
  obtain ⟨g, hfind, hinit⟩ := hfound
  have hcont := List.find?_some hfind
  refine ⟨c, i, g, List.mem_range.mp hc, List.mem_range.mp hi, hfind,
    hcont, hinit.symm, ?_⟩
  rw [← hinit]
  rfl

/-- Concrete instance of claim C6: two overlapping geometries; the particle is
stamped by the earlier-listed one, with its material id 7. -/
theorem claim6_witness :
    geomA.initializeParticle pRest
        ∈ initializeProblem [geomA, geomB] 1 1 (fun _ _ => pRest)
    ∧ ∃ c i g, c < 1 ∧ i < 1 ∧
        (([geomA, geomB]).find? fun g0 => g0.contains ((fun _ _ => pRest) c i))
          = some g ∧
        g.contains ((fun _ _ => pRest) c i) = true ∧
        geomA.initializeParticle pRest
          = g.initializeParticle ((fun _ _ => pRest) c i) ∧
        (geomA.initializeParticle pRest).matid = g.gmatid := by
  have hmem : geomA.initializeParticle pRest
      ∈ initializeProblem [geomA, geomB] 1 1 (fun _ _ => pRest) := by
    show geomA.initializeParticle pRest ∈ [geomA.initializeParticle pRest]
    exact List.mem_singleton_self _
  exact ⟨hmem,
    (claim6_first_match_binding [geomA, geomB] 1 1 (fun _ _ => pRest)).2 _ hmem⟩

theorem solve_fold_writes (cfg : Config) (delta_t : ℚ) (out : String)
    (W : ℕ) (ps : List Particle) :
    ∀ N : ℕ, ∃ qs : List Particle,
      (List.range N).foldl
        (fun (acc : List String × ℕ × List Particle) stepIdx =>
          let ps2 := step cfg delta_t acc.2.2
          if (stepIdx + 1) % W = 0 then
            (acc.1 ++ [fileName out (acc.2.1 + 1)], acc.2.1 + 1, ps2)
          else (acc.1, acc.2.1, ps2))
        ([fileName out 0], 0, ps)
      = ((List.range (N / W + 1)).map (fileName out), N / W, qs) := by
  intro N
  induction N with
  | zero =>
    refine ⟨ps, ?_⟩
    simp [List.range_succ]
  | succ n ih =>
    obtain ⟨qs, hqs⟩ := ih
    rw [List.range_succ, List.foldl_append, hqs]
    simp only [List.foldl_cons, List.foldl_nil]
    by_cases hdvd : W ∣ (n + 1)
    · have hmod : (n + 1) % W = 0 := Nat.mod_eq_zero_of_dvd hdvd
      have hdiv : (n + 1) / W = n / W + 1 := by
        rw [Nat.succ_div, if_pos hdvd]
      rw [if_pos hmod, hdiv]
      refine ⟨step cfg delta_t qs, ?_⟩
      simp [List.range_succ]
    · have hmod : ¬(n + 1) % W = 0 := fun h => hdvd (Nat.dvd_of_mod_eq_zero h)
      have hdiv : (n + 1) / W = n / W := by
        rw [Nat.succ_div, if_neg hdvd, Nat.add_zero]
      rw [if_neg hmod, hdiv]
      exact ⟨step cfg delta_t qs, rfl⟩

theorem solve_files (cfg : Config) (N : ℕ) (delta_t : ℚ) (out : String)
    (W : ℕ) (ps : List Particle) :
    (solve cfg N delta_t out W ps).1
      = (List.range (N / W + 2)).map (fileName out) := by
  obtain ⟨qs, hqs⟩ := solve_fold_writes cfg delta_t out W ps N
  unfold solve
  rw [hqs]
  show (List.range (N / W + 1)).map (fileName out) ++ [fileName out (N / W + 1)]
      = (List.range (N / W + 2)).map (fileName out)
  simp [List.range_succ]

/-- Claim C5: for N steps and positive write frequency W, solve emits exactly
⌊N/W⌋ + 2 snapshot files, named `<output_file>.csv.<index>` with strictly
increasing indices 0, 1, …, ⌊N/W⌋+1: the initial file at index 0, one file
per completed step whose 1-based index is a multiple of W, and one final file
after the loop. -/
theorem claim5_snapshot_cadence (cfg : Config) (N : ℕ) (delta_t : ℚ)
    (out : String) (W : ℕ) (ps : List Particle) (hW : 0 < W) :
    (solve cfg N delta_t out W ps).1
      = (List.range (N / W + 2)).map (fileName out)
    ∧ (solve cfg N delta_t out W ps).1.length = N / W + 2 := by
  have h := solve_files cfg N delta_t out W ps
  exact ⟨h, by rw [h, List.length_map, List.length_range]⟩

/-- Concrete instance of claim C5: 5 steps at write frequency 2 emit the four
files of indices 0, 1, 2, 3. -/
theorem claim5_witness :
    (solve cfg0 5 1 "out" 2 []).1 = (List.range (5 / 2 + 2)).map (fileName "out")
    ∧ (solve cfg0 5 1 "out" 2 []).1.length = 5 / 2 + 2 :=
  claim5_snapshot_cadence cfg0 5 1 "out" 2 [] (by norm_num)

theorem scatterMomentumP_zero_v (npc : ℕ) (p : Particle)
    (hv : p.v = fun _ => 0) (a : ℕ → Fin 3 → ℚ) :
    scatterMomentumP npc p a = a := by
  unfold scatterMomentumP
  apply list_foldl_id_mem
  intro b n _
  have hval : (fun d => b (p.node_ids.getD n 0) d +
      p.m * p.v d * p.basis_values.getD n 0) = b (p.node_ids.getD n 0) := by
    funext d
    rw [hv]
    simp
  rw [hval, Function.update_eq_self]

theorem massWeightedScatter_zero (npc : ℕ) (ps : List Particle)
    (hv : ∀ p ∈ ps, p.v = fun _ => 0) :
    massWeightedScatter npc ps = fun _ _ => 0 := by
  unfold massWeightedScatter
  apply list_foldl_fixed_mem
  intro p hp
  exact scatterMomentumP_zero_v npc p (hv p hp) _

theorem scatterForcesP_zero_stress (npc : ℕ) (p : Particle)
    (hs : p.stress = fun _ _ => 0) (a : ℕ → Fin 3 → ℚ) :
    scatterForcesP npc p a = a := by
  unfold scatterForcesP
  apply list_foldl_id_mem
  intro b n _
  have hval : (fun i => b (p.node_ids.getD n 0) i -
      ∑ j, p.volume * (p.basis_gradients.getD n (fun _ => 0)) j * p.stress j i)
      = b (p.node_ids.getD n 0) := by
    funext i
    rw [hs]
    simp
  rw [hval, Function.update_eq_self]

theorem calculateInternalNodalForces_zero (npc : ℕ) (ps : List Particle)
    (hs : ∀ p ∈ ps, p.stress = fun _ _ => 0) :
    calculateInternalNodalForces npc ps = fun _ _ => 0 := by
  unfold calculateInternalNodalForces
  apply list_foldl_fixed_mem
  intro p hp
  exact scatterForcesP_zero_stress npc p (hs p hp) _

theorem applyBCs_zero (bc : ℕ → (ℕ → ℚ) → (ℕ → Fin 3 → ℚ) → (ℕ → Fin 3 → ℚ))
    (node_m : ℕ → ℚ)
    (hbc : ∀ i m, bc i m (fun _ _ => (0:ℚ)) = fun _ _ => 0) :
    applyBCs bc node_m (fun _ _ => 0) = fun _ _ => 0 := by
  unfold applyBCs
  apply list_foldl_fixed_mem
  intro i _
  exact hbc i node_m

theorem applyBCs_id (bc : ℕ → (ℕ → ℚ) → (ℕ → Fin 3 → ℚ) → (ℕ → Fin 3 → ℚ))
    (node_m : ℕ → ℚ) (a : ℕ → Fin 3 → ℚ)
    (hbc : ∀ i m x, bc i m x = x) :
    applyBCs bc node_m a = a := by
  unfold applyBCs
  apply list_foldl_id_mem
  intro b i _
  exact hbc i node_m b

theorem calculateNodalImpulse_zero (node_m : ℕ → ℚ) (delta_t : ℚ)
    (bcImp : ℕ → (ℕ → ℚ) → (ℕ → Fin 3 → ℚ) → (ℕ → Fin 3 → ℚ))
    (hbc : ∀ i m, bcImp i m (fun _ _ => (0:ℚ)) = fun _ _ => 0) :
    calculateNodalImpulse (fun _ _ => 0) node_m delta_t false bcImp
      = fun _ _ => 0 := by
  unfold calculateNodalImpulse
  simp only [Bool.false_eq_true, if_false, mul_zero]
  exact applyBCs_zero bcImp node_m hbc

theorem pvStep_zero (node_m : ℕ → ℚ) (delta_t : ℚ) (p q : Particle) (n : ℕ) :
    pvStep (fun _ _ => 0) (fun _ _ => 0) node_m delta_t p q n = q := by
  unfold pvStep
  dsimp only
  by_cases hm : 0 < node_m (p.node_ids.getD n 0)
  · rw [if_pos hm]
    have hr : (fun d => q.r d + delta_t * ((0:ℚ) + 0) * p.basis_values.getD n 0
        / node_m (p.node_ids.getD n 0)) = q.r := by
      funext d
      simp
    have hv2 : (fun d => q.v d + (0:ℚ) * p.basis_values.getD n 0
        / node_m (p.node_ids.getD n 0)) = q.v := by
      funext d
      simp
    rw [hr, hv2]
  · rw [if_neg hm]

theorem updateParticlePV_zero (npc : ℕ) (node_m : ℕ → ℚ) (delta_t : ℚ)
    (p : Particle) :
    updateParticlePV npc (fun _ _ => 0) (fun _ _ => 0) node_m delta_t p = p := by
  unfold updateParticlePV
  apply list_foldl_id_mem
  intro q n _
  exact pvStep_zero node_m delta_t p q n

theorem nodalVelocityDivide_zero (node_m : ℕ → ℚ) :
    nodalVelocityDivide node_m (fun _ _ => 0) = fun _ _ => 0 := by
  funext n d
  unfold nodalVelocityDivide
  by_cases hm : 0 < node_m n
  · rw [if_pos hm]
    simp
  · rw [if_neg hm]

theorem calculateNodalVelocity_zero (npc : ℕ)
    (bc : ℕ → (ℕ → ℚ) → (ℕ → Fin 3 → ℚ) → (ℕ → Fin 3 → ℚ))
    (node_m : ℕ → ℚ) (ps : List Particle)
    (hv : ∀ p ∈ ps, p.v = fun _ => 0)
    (hbc : ∀ i m, bc i m (fun _ _ => (0:ℚ)) = fun _ _ => 0) :
    calculateNodalVelocity npc bc node_m ps = fun _ _ => 0 := by
  unfold calculateNodalVelocity
  rw [massWeightedScatter_zero npc ps hv, nodalVelocityDivide_zero,
    applyBCs_zero bc node_m hbc]

theorem list_sum_map_zero {α : Type*} (l : List α) :
    (l.map (fun _ => (0:ℚ))).sum = 0 := by
  induction l with
  | nil => rfl
  | cons a t ih => simp [ih]

theorem updateParticleGradientsP_zero_fields (npc : ℕ) (delta_t : ℚ)
    (p : Particle) :
    (updateParticleGradientsP npc (fun _ _ => 0) delta_t p).F = p.F
    ∧ (updateParticleGradientsP npc (fun _ _ => 0) delta_t p).volume
        = p.volume := by
  have hgrad : (updateParticleGradientsP npc (fun _ _ => 0) delta_t p).grad_v
      = fun _ _ => 0 := by
    funext i j
    show ((List.range npc).map
      (fun n => (p.basis_gradients.getD n (fun _ => 0)) i *
        (fun (_ : ℕ) (_ : Fin 3) => (0:ℚ)) (p.node_ids.getD n 0) j)).sum = 0
    have hfun : (fun n => (p.basis_gradients.getD n (fun _ => 0)) i *
        (fun (_ : ℕ) (_ : Fin 3) => (0:ℚ)) (p.node_ids.getD n 0) j)
        = fun _ => (0:ℚ) := by
      funext n
      simp
    rw [hfun, list_sum_map_zero]
  have hF : (updateParticleGradientsP npc (fun _ _ => 0) delta_t p).F
      = fun i j => p.F i j +
          ∑ k, ((updateParticleGradientsP npc (fun _ _ => 0) delta_t p).grad_v i k
            * delta_t) * p.F k j := rfl
  have hV : (updateParticleGradientsP npc (fun _ _ => 0) delta_t p).volume
      = p.volume * determinant (fun i j =>
          if i = j then
            (updateParticleGradientsP npc (fun _ _ => 0) delta_t p).grad_v i j
              * delta_t + 1
          else
            (updateParticleGradientsP npc (fun _ _ => 0) delta_t p).grad_v i j
              * delta_t) := rfl
  constructor
  · rw [hF, hgrad]
    funext i j
    simp
  · rw [hV, hgrad]
    have hdet : determinant (fun i j =>
        if i = j then (fun (_ : Fin 3) (_ : Fin 3) => (0:ℚ)) i j * delta_t + 1
        else (fun (_ : Fin 3) (_ : Fin 3) => (0:ℚ)) i j * delta_t) = 1 := by
      simp [determinant]
    rw [hdet, mul_one]

theorem stressStrainP_zero_stress (materials : List StressModel) (p : Particle)
    (hmat : ∀ f ∈ materials, ∀ q, (f q).1 = fun _ _ => 0)
    (hp : p.stress = fun _ _ => 0) :
    (stressStrainP materials p).stress = fun _ _ => 0 := by
  unfold stressStrainP
  dsimp only
  by_cases h : p.matid < materials.length
  · have hget : materials.getD p.matid (fun q => (q.stress, q.strain))
        = materials[p.matid] := by
      rw [List.getD_eq_getElem?_getD, List.getElem?_eq_getElem h]
      rfl
    rw [hget]
    exact hmat _ (List.getElem_mem h) p
  · rw [List.getD_eq_default _ _ (le_of_not_lt h)]
    exact hp

theorem forall2_map_self {α β : Type*} (R : β → α → Prop) (h : α → β) :
    ∀ l : List α, (∀ a ∈ l, R (h a) a) → List.Forall₂ R (l.map h) l := by
  intro l
  induction l with
  | nil => intro _; exact List.Forall₂.nil
  | cons a t ih =>
    intro hl
    rw [List.map_cons]
    exact List.Forall₂.cons (hl a (List.mem_cons_self _ _))
      (ih fun x hx => hl x (List.mem_cons_of_mem _ hx))

theorem forall2_self {α : Type*} (R : α → α → Prop) :
    ∀ l : List α, (∀ a ∈ l, R a a) → List.Forall₂ R l l := by
  intro l
  induction l with
  | nil => intro _; exact List.Forall₂.nil
  | cons a t ih =>
    intro hl
    exact List.Forall₂.cons (hl a (List.mem_cons_self _ _))
      (ih fun x hx => hl x (List.mem_cons_of_mem _ hx))

theorem forall2_trans_comp {α β γ : Type*} (R : α → β → Prop)
    (S : β → γ → Prop) (T : α → γ → Prop)
    (h : ∀ a b c, R a b → S b c → T a c) :
    ∀ {l1 : List α} {l2 : List β} {l3 : List γ},
      List.Forall₂ R l1 l2 → List.Forall₂ S l2 l3 → List.Forall₂ T l1 l3 := by
  intro l1 l2 l3 h12
  induction h12 generalizing l3 with
  | nil =>
    intro h23
    cases h23
    exact List.Forall₂.nil
  | cons hab htail ih =>
    intro h23
    cases h23 with
    | cons hbc htail2 => exact List.Forall₂.cons (h _ _ _ hab hbc) (ih htail2)

theorem forall2_mem_left {α β : Type*} (R : α → β → Prop) :
    ∀ {l1 : List α} {l2 : List β}, List.Forall₂ R l1 l2 →
      ∀ a ∈ l1, ∃ b, R a b := by
  intro l1 l2 h
  induction h with
  | nil =>
    intro a ha
    cases ha
  | cons hab _ ih =>
    intro x hx
    rcases List.mem_cons.mp hx with rfl | hx2
    · exact ⟨_, hab⟩
    · exact ih x hx2

theorem list_map_congr_id {α : Type*} (f : α → α) :
    ∀ l : List α, (∀ a ∈ l, f a = a) → l.map f = l := by
  intro l
  induction l with
  | nil => intro _; rfl
  | cons a t ih =>
    intro hl
    rw [List.map_cons, hl a (List.mem_cons_self _ _),
      ih fun x hx => hl x (List.mem_cons_of_mem _ hx)]

theorem step_at_rest (cfg : Config) (delta_t : ℚ) (ps : List Particle)
    (hg : cfg.has_gravity = false)
    (hbcP : ∀ i m, cfg.bc i m (fun _ _ => (0:ℚ)) = fun _ _ => 0)
    (hbcI : ∀ i m, cfg.bcImp i m (fun _ _ => (0:ℚ)) = fun _ _ => 0)
    (hmat : ∀ f ∈ cfg.materials, ∀ q, (f q).1 = fun _ _ => 0)
    (hv : ∀ p ∈ ps, p.v = fun _ => 0)
    (hs : ∀ p ∈ ps, p.stress = fun _ _ => 0) :
    List.Forall₂ restR (step cfg delta_t ps) ps := by
  have hv1 : ∀ p ∈ locateParticles cfg.mesh ps, p.v = fun _ => 0 := by
    intro q hq
    rw [locateParticles, List.mem_map] at hq
    obtain ⟨p, hp, rfl⟩ := hq
    exact hv p hp
  have hs1 : ∀ p ∈ locateParticles cfg.mesh ps, p.stress = fun _ _ => 0 := by
    intro q hq
    rw [locateParticles, List.mem_map] at hq
    obtain ⟨p, hp, rfl⟩ := hq
    exact hs p hp
  have hstepeq : step cfg delta_t ps
      = (locateParticles cfg.mesh ps).map
          (fun p => stressStrainP cfg.materials
            (updateParticleGradientsP cfg.mesh.npc (fun _ _ => 0) delta_t p)) := by
    unfold step
    dsimp only
    rw [show calculateNodalMomentum cfg.mesh.npc cfg.bc
        (calculateNodalMass cfg.mesh.npc (locateParticles cfg.mesh ps))
        (locateParticles cfg.mesh ps) = fun _ _ => 0 by
      unfold calculateNodalMomentum
      rw [massWeightedScatter_zero _ _ hv1, applyBCs_zero _ _ hbcP]]
    rw [calculateInternalNodalForces_zero _ _ hs1, hg,
      calculateNodalImpulse_zero _ _ _ hbcI]
    rw [show updateParticlePositionAndVelocity cfg.mesh.npc (fun _ _ => 0)
        (fun _ _ => 0) (calculateNodalMass cfg.mesh.npc (locateParticles cfg.mesh ps))
        delta_t (locateParticles cfg.mesh ps) = locateParticles cfg.mesh ps by
      unfold updateParticlePositionAndVelocity
      exact list_map_congr_id _ _ fun p _ => updateParticlePV_zero _ _ _ p]
    rw [calculateNodalVelocity_zero _ _ _ _ hv1 hbcP]
    unfold updateParticleStressStrain updateParticleGradients
    rw [List.map_map]
    rfl
  rw [hstepeq]
  unfold locateParticles
  rw [List.map_map]
  apply forall2_map_self
  intro p hp
  refine ⟨rfl, ?_, ?_, ?_⟩
  · show (updateParticleGradientsP cfg.mesh.npc (fun _ _ => 0) delta_t
      (locateP cfg.mesh p)).F = p.F
    exact (updateParticleGradientsP_zero_fields cfg.mesh.npc delta_t
      (locateP cfg.mesh p)).1
  · show p.v = fun _ => 0
    exact hv p hp
  · show (stressStrainP cfg.materials
      (updateParticleGradientsP cfg.mesh.npc (fun _ _ => 0) delta_t
        (locateP cfg.mesh p))).stress = fun _ _ => 0
    exact stressStrainP_zero_stress cfg.materials _ hmat (hs p hp)

/-- Claim C7: with zero particle velocities, gravity disabled, zero stress
(both the initial stresses and every material model's output), and boundary
conditions that leave a zero nodal field zero, any number of pipeline steps
leaves every particle's position and deformation gradient unchanged. -/
theorem claim7_identity_at_rest (cfg : Config) (delta_t : ℚ)
    (ps : List Particle) (k : ℕ)
    (hg : cfg.has_gravity = false)
    (hbcP : ∀ i m, cfg.bc i m (fun _ _ => (0:ℚ)) = fun _ _ => 0)
    (hbcI : ∀ i m, cfg.bcImp i m (fun _ _ => (0:ℚ)) = fun _ _ => 0)
    (hmat : ∀ f ∈ cfg.materials, ∀ q, (f q).1 = fun _ _ => 0)
    (hv : ∀ p ∈ ps, p.v = fun _ => 0)
    (hs : ∀ p ∈ ps, p.stress = fun _ _ => 0) :
    List.Forall₂ (fun q p => q.r = p.r ∧ q.F = p.F)
      ((step cfg delta_t)^[k] ps) ps := by
  have main : ∀ j : ℕ, List.Forall₂ restR ((step cfg delta_t)^[j] ps) ps := by
    intro j
    induction j with
    | zero =>
      rw [Function.iterate_zero_apply]
      exact forall2_self _ ps fun p hp => ⟨rfl, rfl, hv p hp, hs p hp⟩
    | succ n ih =>
      rw [Function.iterate_succ_apply']
      have hv2 : ∀ q ∈ (step cfg delta_t)^[n] ps, q.v = fun _ => 0 := by
        intro q hq
        obtain ⟨b, hR⟩ := forall2_mem_left restR ih q hq
        exact hR.2.2.1
      have hs2 : ∀ q ∈ (step cfg delta_t)^[n] ps, q.stress = fun _ _ => 0 := by
        intro q hq
        obtain ⟨b, hR⟩ := forall2_mem_left restR ih q hq
        exact hR.2.2.2
      exact forall2_trans_comp restR restR restR
        (fun a b c hab hbc =>
          ⟨hab.1.trans hbc.1, hab.2.1.trans hbc.2.1, hab.2.2.1, hab.2.2.2⟩)
        (step_at_rest cfg delta_t _ hg hbcP hbcI hmat hv2 hs2) ih
  exact List.Forall₂.imp (fun a b hR => ⟨hR.1, hR.2.1⟩) (main k)

/-- Concrete instance of claim C7: three steps on the at-rest particle with
the identity boundary conditions and the zero-stress material. -/
theorem claim7_witness :
    List.Forall₂ (fun q p => q.r = p.r ∧ q.F = p.F)
      ((step cfg0 1)^[3] [pRest]) [pRest] :=
  claim7_identity_at_rest cfg0 1 [pRest] 3 rfl (fun _ _ => rfl) (fun _ _ => rfl)
    (by
      intro f hf q
      rw [show cfg0.materials = [zeroStressModel] from rfl,
        List.mem_singleton] at hf
      subst hf
      rfl)
    (by
      intro p hp
      rw [List.mem_singleton] at hp
      subst hp
      rfl)
    (by
      intro p hp
      rw [List.mem_singleton] at hp
      subst hp
      rfl)

theorem pvStep_zero_imp (node_p : ℕ → Fin 3 → ℚ) (node_m : ℕ → ℚ)
    (delta_t : ℚ) (p q : Particle) (n : ℕ) (rn : Fin 3 → ℚ)
    (hq : q = { p with r := rn }) :
    ∃ rn2, pvStep (fun _ _ => 0) node_p node_m delta_t p q n
      = { p with r := rn2 } := by
  subst hq
  unfold pvStep
  dsimp only
  by_cases hm : 0 < node_m (p.node_ids.getD n 0)
  · rw [if_pos hm]
    refine ⟨fun d => rn d + delta_t * (node_p (p.node_ids.getD n 0) d + 0) *
      p.basis_values.getD n 0 / node_m (p.node_ids.getD n 0), ?_⟩
    have hv2 : (fun d => ({ p with r := rn } : Particle).v d +
        (0:ℚ) * p.basis_values.getD n 0 / node_m (p.node_ids.getD n 0))
        = p.v := by
      funext d
      simp
    rw [hv2]
  · rw [if_neg hm]
    exact ⟨rn, rfl⟩

theorem updateParticlePV_zero_imp (npc : ℕ) (node_p : ℕ → Fin 3 → ℚ)
    (node_m : ℕ → ℚ) (delta_t : ℚ) (p : Particle) :
    ∃ rnew, updateParticlePV npc (fun _ _ => 0) node_p node_m delta_t p
      = { p with r := rnew } := by
  unfold updateParticlePV
  have key : ∀ (l : List ℕ) (q : Particle) (rn : Fin 3 → ℚ),
      q = { p with r := rn } →
      ∃ rn2, l.foldl (pvStep (fun _ _ => 0) node_p node_m delta_t p) q
        = { p with r := rn2 } := by
    intro l
    induction l with
    | nil =>
      intro q rn hq
      exact ⟨rn, hq⟩
    | cons n t ih =>
      intro q rn hq
      rw [List.foldl_cons]
      obtain ⟨rn2, h2⟩ := pvStep_zero_imp node_p node_m delta_t p q n rn hq
      rw [h2]
      exact ih _ rn2 rfl
  exact key (List.range npc) p p.r (by cases p; rfl)

theorem massWeightedScatter_pv (npc : ℕ) (node_p : ℕ → Fin 3 → ℚ)
    (node_m : ℕ → ℚ) (delta_t : ℚ) (ps : List Particle) :
    massWeightedScatter npc
      (ps.map (updateParticlePV npc (fun _ _ => 0) node_p node_m delta_t))
      = massWeightedScatter npc ps := by
  unfold massWeightedScatter
  rw [List.foldl_map]
  apply list_foldl_congr
  intro b p
  obtain ⟨rnew, hr⟩ := updateParticlePV_zero_imp npc node_p node_m delta_t p
  rw [hr]
  rfl

/-- Claim C8, amended: when the impulse of the step is zero (zero stress, no
gravity, impulse boundary conditions that preserve a zero field) and the
momentum boundary conditions act as the identity, the mass-weighted momentum
re-scattered inside calculateNodalVelocity in step 7 (from the particle
velocities after the step-6 update) equals node_p as left by step 3, so an
implementation reusing node_p computes the same nodal velocity. -/
theorem claim8_rescatter_amended (cfg : Config) (delta_t : ℚ)
    (ps : List Particle)
    (hbc : ∀ i m x, cfg.bc i m x = x)
    (hbcI : ∀ i m, cfg.bcImp i m (fun _ _ => (0:ℚ)) = fun _ _ => 0)
    (hg : cfg.has_gravity = false)
    (hs : ∀ p ∈ ps, p.stress = fun _ _ => 0) :
    step7Rescatter cfg delta_t ps = step3Momentum cfg ps := by
  have hs1 : ∀ p ∈ locateParticles cfg.mesh ps, p.stress = fun _ _ => 0 := by
    intro q hq
    rw [locateParticles, List.mem_map] at hq
    obtain ⟨p, hp, rfl⟩ := hq
    exact hs p hp
  unfold step7Rescatter step3Momentum
  dsimp only
  rw [calculateInternalNodalForces_zero _ _ hs1, hg,
    calculateNodalImpulse_zero _ _ _ hbcI]
  unfold updateParticlePositionAndVelocity
  rw [massWeightedScatter_pv]
  unfold calculateNodalMomentum
  rw [applyBCs_id _ _ _ hbc]

/-- Concrete instance of the amended claim C8: the at-rest particle with
identity boundary conditions and no gravity. -/
theorem claim8_witness :
    step7Rescatter cfg0 1 [pRest] = step3Momentum cfg0 [pRest] :=
  claim8_rescatter_amended cfg0 1 [pRest] (fun _ _ _ => rfl) (fun _ _ => rfl)
    rfl
    (by
      intro p hp
      rw [List.mem_singleton] at hp
      subst hp
      rfl)

/-- Counterexample to claim C8 as stated: with gravity on (nonzero impulse)
and identity boundary conditions, the step-7 re-scatter — computed from the
particle velocities after the step-6 FLIP update — differs from the step-3
nodal momentum: for the single at-rest unit-mass particle the re-scattered
z-momentum is −9.81·Δt·m while node_p is zero. -/
theorem claim8_counterexample :
    step7Rescatter cfgG 1 [pRest] 0 2 ≠ step3Momentum cfgG [pRest] 0 2 := by
  norm_num [step7Rescatter, step3Momentum, locateParticles, locateP,
    calculateNodalMass, scatterMassP, calculateNodalMomentum,
    massWeightedScatter, scatterMomentumP, applyBCs, bcId,
    calculateInternalNodalForces, scatterForcesP, calculateNodalImpulse,
    updateParticlePositionAndVelocity, updateParticlePV, pvStep,
    cfgG, mesh1, pRest, Function.update, List.range_succ, Fin.sum_univ_three]

theorem solveCheckedStep_none (cfg : Config) (delta_t : ℚ) (out : String)
    (W : ℕ) (acc : List String × ℕ × Option (List Particle)) (x : ℕ)
    (h : acc.2.2 = none) :
    solveCheckedStep cfg delta_t out W acc x = acc := by
  unfold solveCheckedStep
  rw [h]

theorem solveCheckedStep_fst_grows (cfg : Config) (delta_t : ℚ)
    (out : String) (W : ℕ) (acc : List String × ℕ × Option (List Particle))
    (x : ℕ) :
    ∃ u, (solveCheckedStep cfg delta_t out W acc x).1 = acc.1 ++ u := by
  unfold solveCheckedStep
  cases hs : acc.2.2 with
  | none => exact ⟨[], by simp⟩
  | some cur =>
    cases hc : stepChecked cfg delta_t cur with
    | none =>
      refine ⟨[], ?_⟩
      dsimp only
      rw [hc]
      simp
    | some ps2 =>
      by_cases hmod : (x + 1) % W = 0
      · refine ⟨[fileName out (acc.2.1 + 1)], ?_⟩
        dsimp only
        rw [hc]
        dsimp only
        rw [if_pos hmod]
      · refine ⟨[], ?_⟩
        dsimp only
        rw [hc]
        dsimp only
        rw [if_neg hmod]
        simp

theorem list_foldl_fst_grows {α β γ : Type*} (f : List α × γ → β → List α × γ)
    (hf : ∀ acc x, ∃ u, (f acc x).1 = acc.1 ++ u) :
    ∀ (l : List β) (acc : List α × γ), ∃ u, (l.foldl f acc).1 = acc.1 ++ u := by
  intro l
  induction l with
  | nil =>
    intro acc
    exact ⟨[], (List.append_nil _).symm⟩
  | cons x t ih =>
    intro acc
    rw [List.foldl_cons]
    obtain ⟨u1, h1⟩ := hf acc x
    obtain ⟨u2, h2⟩ := ih (f acc x)
    exact ⟨u1 ++ u2, by rw [h2, h1, List.append_assoc]⟩

theorem solveChecked_head (cfg : Config) (N : ℕ) (delta_t : ℚ) (out : String)
    (W : ℕ) (ps : List Particle) :
    ∃ t, (solveChecked cfg N delta_t out W ps).1 = fileName out 0 :: t := by
  unfold solveChecked
  dsimp only
  obtain ⟨u, hu⟩ := list_foldl_fst_grows
    (solveCheckedStep cfg delta_t out W)
    (solveCheckedStep_fst_grows cfg delta_t out W)
    (List.range N) ([fileName out 0], 0, some ps)
  cases hres : ((List.range N).foldl (solveCheckedStep cfg delta_t out W)
      ([fileName out 0], 0, some ps)).2.2 with
  | none =>
    refine ⟨u, ?_⟩
    dsimp only
    rw [hu]
    rfl
  | some qs =>
    refine ⟨u ++ [fileName out
      (((List.range N).foldl (solveCheckedStep cfg delta_t out W)
        ([fileName out 0], 0, some ps)).2.1 + 1)], ?_⟩
    dsimp only
    rw [hu]
    simp

theorem stepChecked_empty_materials (cfg : Config) (delta_t : ℚ)
    (ps : List Particle) (hmats : cfg.materials = []) (hne : ps ≠ []) :
    stepChecked cfg delta_t ps = none := by
  obtain ⟨q, t, rfl⟩ := List.exists_cons_of_ne_nil hne
  unfold stepChecked
  rw [if_neg]
  intro hall
  rw [locateParticles, List.map_cons, List.all_cons, hmats] at hall
  simp at hall

theorem solveChecked_fold_nil (cfg : Config) (delta_t : ℚ) (out : String)
    (W : ℕ) :
    ∀ N : ℕ,
      (List.range N).foldl (solveCheckedStep cfg delta_t out W)
        ([fileName out 0], 0, some ([] : List Particle))
      = ((List.range (N / W + 1)).map (fileName out), N / W,
          some ([] : List Particle)) := by
  intro N
  induction N with
  | zero => simp [List.range_succ]
  | succ n ih =>
    rw [List.range_succ, List.foldl_append, ih, List.foldl_cons,
      List.foldl_nil]
    have hsc : stepChecked cfg delta_t [] = some ([] : List Particle) := rfl
    unfold solveCheckedStep
    dsimp only
    rw [hsc]
    dsimp only
    by_cases hdvd : W ∣ (n + 1)
    · rw [if_pos (Nat.mod_eq_zero_of_dvd hdvd), Nat.succ_div, if_pos hdvd]
      simp [List.range_succ]
    · rw [if_neg (fun h => hdvd (Nat.dvd_of_mod_eq_zero h)), Nat.succ_div,
        if_neg hdvd]
      simp

theorem solveChecked_fold_abort (cfg : Config) (delta_t : ℚ) (out : String)
    (W : ℕ) (ps : List Particle) (hmats : cfg.materials = [])
    (hne : ps ≠ []) :
    ∀ N : ℕ, 0 < N →
      (List.range N).foldl (solveCheckedStep cfg delta_t out W)
        ([fileName out 0], 0, some ps)
      = ([fileName out 0], 0, none) := by
  intro N hN
  cases N with
  | zero => exact absurd hN (lt_irrefl 0)
  | succ n =>
    rw [List.range_succ_eq_map, List.foldl_cons]
    have h1 : solveCheckedStep cfg delta_t out W
        ([fileName out 0], 0, some ps) 0 = ([fileName out 0], 0, none) := by
      unfold solveCheckedStep
      dsimp only
      rw [stepChecked_empty_materials cfg delta_t ps hmats hne]
    rw [h1]
    apply list_foldl_fixed_mem
    intro x _
    exact solveCheckedStep_none cfg delta_t out W _ x rfl

/-- Claim C9, amended: solve performs no configuration validation at entry:
it always writes the initial snapshot (index 0) first, whatever the
configuration.  With an empty material table, a run that dispatches no
particle (empty particle list) still emits the full snapshot sequence, while
a run with at least one particle and at least one step aborts inside the
first step via the matid assertion of calculateInternalNodalForces — after
the initial snapshot has already been written, and emitting nothing else. -/
theorem claim9_no_entry_validation (cfg : Config) (N : ℕ) (delta_t : ℚ)
    (out : String) (W : ℕ) (ps : List Particle)
    (hdt : delta_t ≤ 0) (hmats : cfg.materials = []) (hW : 0 < W) :
    (solveChecked cfg N delta_t out W ps).1.take 1 = [fileName out 0]
    ∧ (ps = [] →
        (solveChecked cfg N delta_t out W ps).1
          = (List.range (N / W + 2)).map (fileName out))
    ∧ (ps ≠ [] → 0 < N →
        (solveChecked cfg N delta_t out W ps).1 = [fileName out 0]
        ∧ (solveChecked cfg N delta_t out W ps).2 = none) := by
  refine ⟨?_, ?_, ?_⟩
  · obtain ⟨t, ht⟩ := solveChecked_head cfg N delta_t out W ps
    rw [ht]
    rfl
  · intro hps
    subst hps
    unfold solveChecked
    dsimp only
    rw [solveChecked_fold_nil cfg delta_t out W N]
    dsimp only
    simp [List.range_succ]
  · intro hne hN
    unfold solveChecked
    dsimp only
    rw [solveChecked_fold_abort cfg delta_t out W ps hmats hne N hN]
    exact ⟨rfl, rfl⟩

/-- Concrete instance of the amended claim C9: one step, Δt = −1, one
particle, no materials; solve writes snapshot 0 and then aborts in the first
step, emitting nothing else. -/
theorem claim9_witness :
    ((-1 : ℚ) ≤ 0 ∧ cfgE.materials = [] ∧ 0 < 1)
    ∧ ((solveChecked cfgE 1 (-1) "out" 1 [pRest]).1.take 1
        = [fileName "out" 0]
      ∧ ([pRest] = [] →
          (solveChecked cfgE 1 (-1) "out" 1 [pRest]).1
            = (List.range (1 / 1 + 2)).map (fileName "out"))
      ∧ (([pRest] : List Particle) ≠ [] → 0 < 1 →
          (solveChecked cfgE 1 (-1) "out" 1 [pRest]).1 = [fileName "out" 0]
          ∧ (solveChecked cfgE 1 (-1) "out" 1 [pRest]).2 = none)) :=
  ⟨⟨by norm_num, rfl, by norm_num⟩,
    claim9_no_entry_validation cfgE 1 (-1) "out" 1 [pRest] (by norm_num) rfl
      (by norm_num)⟩

/-- Counterexample to claim C9 as stated: with an invalid configuration
(non-positive Δt and an empty material list) solve does not fail at entry:
here (zero steps, so the assertion is never reached) it emits the initial
snapshot (index 0) and the final snapshot (index 1) rather than emitting
nothing. -/
theorem claim9_counterexample :
    (solveChecked cfgE 0 (-1) "out" 1 []).1
      = [fileName "out" 0, fileName "out" 1]
    ∧ (solveChecked cfgE 0 (-1) "out" 1 []).1 ≠ []
    ∧ (-1 : ℚ) ≤ 0 ∧ cfgE.materials = [] := by
  refine ⟨rfl, ?_, by norm_num, rfl⟩
  rw [show (solveChecked cfgE 0 (-1) "out" 1 []).1
    = [fileName "out" 0, fileName "out" 1] from rfl]
  simp

end ExaMPM
